import Mathlib

/-!
# API gateway: route table, request rewriting and error translation

A shallow embedding of `gateway/router.go` and `gateway/gateway.go` together with the
`config.Route` record they work on, followed by the properties of the route table
(longest match, stable tie-break), of the proxy director (path rewriting, header
propagation) and of the two error responses.

Go strings are byte sequences.  They are represented by `List Char`, one `Char` per byte,
so that `List.length` is Go's `len` and list prefixes are byte prefixes.  All literals used
below are ASCII, where characters and bytes coincide.
-/

/-- A Go string: its bytes in order, one `Char` per byte. -/
abbrev GoString := List Char

/-! ## Library routines used by the gateway -/

namespace strings

/-- Go `strings.HasPrefix(s, prefix)`:
`len(s) >= len(prefix) && s[:len(prefix)] == prefix`. -/
def HasPrefix (s pre : GoString) : Bool :=
  decide (pre.length ≤ s.length) && (s.take pre.length == pre)

/-- Go `strings.HasSuffix(s, suffix)`:
`len(s) >= len(suffix) && s[len(s)-len(suffix):] == suffix`. -/
def HasSuffix (s suf : GoString) : Bool :=
  decide (suf.length ≤ s.length) && (s.drop (s.length - suf.length) == suf)

/-- Go `strings.TrimPrefix(s, prefix)`: `s[len(prefix):]` when `s` has the prefix,
`s` itself otherwise. -/
def TrimPrefix (s pre : GoString) : GoString :=
  if HasPrefix s pre then s.drop pre.length else s

/-- Go `strings.Split(s, sep)` for a one-byte separator: the pieces of `s` between the
occurrences of `sep`; a string without the separator is its own single piece. -/
def Split (s : GoString) (sep : Char) : List GoString :=
  s.foldr
    (fun c acc =>
      if c = sep then [] :: acc
      else
        match acc with
        | [] => [[c]]
        | piece :: rest => (c :: piece) :: rest)
    [[]]

/-- Go `strings.Join(elems, sep)`. -/
def Join : List GoString → GoString → GoString
  | [], _ => []
  | [e], _ => e
  | e :: rest, sep => e ++ sep ++ Join rest sep

end strings

namespace sort

/-- Inner loop of the library insertion sort,
`for j := i; j > a && less(j, j-1); j-- { swap(j, j-1) }`.
`x` is the element at index `i`; the argument list holds the elements to its left, nearest
first; the result is that stretch, again nearest first, with `x` moved to its place. -/
def siftLeft {α : Type} (less : α → α → Bool) (x : α) : List α → List α
  | [] => [x]
  | y :: ys => if less x y then y :: siftLeft less x ys else x :: y :: ys

/-- Library insertion sort, `for i := a + 1; i < b; i++ { inner loop }`, over a whole slice.
The accumulator is the already ordered left part, nearest element first. -/
def insertionSort {α : Type} (less : α → α → Bool) (data : List α) : List α :=
  (data.foldl (fun done x => siftLeft less x done) []).reverse

/-- Go `sort.SliceStable(x, less)`.  The library sorts blocks of 20 elements with
`insertionSort` and merges the blocks with `symMerge`; a slice of at most 20 elements is
sorted by `insertionSort` alone.  The routine is represented by that insertion sort.
`stable_sort_unique` below shows that a list has only one stable arrangement by descending
key, so the merge phase cannot produce anything else. -/
def SliceStable {α : Type} (less : α → α → Bool) (x : List α) : List α :=
  insertionSort less x

end sort

namespace url

/-- The fields of Go `url.URL` that the gateway reads or writes. -/
structure URL where
  Scheme : GoString
  Host : GoString
  Path : GoString
  RawPath : GoString
  RawQuery : GoString
deriving DecidableEq, Repr

end url

namespace http

/-- Whether a byte may occur in a header field name (an RFC 7230 token byte). -/
def validHeaderFieldByte (c : Char) : Bool :=
  c.isAlphanum || "!#$%&*+-.^_|~".toList.contains c || c == Char.ofNat 39 || c == Char.ofNat 96

/-- Second loop of the library `canonicalMIMEHeaderKey`: upper case for the first letter and
for a letter after a dash, lower case elsewhere. -/
def canonicalLoop : Bool → GoString → GoString
  | _, [] => []
  | upper, c :: cs =>
    let c1 := if upper && c.isLower then c.toUpper
              else if !upper && c.isUpper then c.toLower else c
    c1 :: canonicalLoop (c1 == '-') cs

/-- Go `textproto.CanonicalMIMEHeaderKey`: a key that holds a byte which is not a token byte
is returned unchanged, any other key is put in canonical case. -/
def CanonicalMIMEHeaderKey (s : GoString) : GoString :=
  if s.all validHeaderFieldByte then canonicalLoop true s else s

/-- Go `http.Header`, a `map[string][]string`: the values stored under each key, `none` for
a key that is absent. -/
abbrev Header := GoString → Option (List GoString)

/-- The empty header map. -/
def Header.empty : Header := fun _ => none

/-- Go `Header.Get(key)`: the first value stored under the canonical form of `key`, the empty
string when there is none. -/
def Header.Get (h : Header) (key : GoString) : GoString :=
  match h (CanonicalMIMEHeaderKey key) with
  | some (v :: _) => v
  | _ => []

/-- Go `Header.Set(key, value)`: the canonical form of `key` now holds exactly `[value]`. -/
def Header.Set (h : Header) (key value : GoString) : Header :=
  fun k => if k = CanonicalMIMEHeaderKey key then some [value] else h k

/-- Go `Header.Del(key)`: the canonical form of `key` is absent afterwards. -/
def Header.Del (h : Header) (key : GoString) : Header :=
  fun k => if k = CanonicalMIMEHeaderKey key then none else h k

/-- Go `http.Request`, the fields the gateway and the proxy read or write.  `Host` is the
host the client sent; the server stores it here and deletes the `Host` entry from `Header`.
`RemoteAddr` is the network address of the client. -/
structure Request where
  Method : GoString
  URL : url.URL
  Host : GoString
  Header : Header
  RemoteAddr : GoString

/-- Go `http.Response` as returned by a round trip. -/
structure Response where
  StatusCode : Nat
  Header : Header
  Body : GoString

end http

namespace json

/-- The JSON values the gateway puts in its error bodies. -/
inductive Value where
  | str (s : GoString)
  | num (n : Nat)
deriving DecidableEq, Repr

/-- A Go `map[string]any` handed to the JSON encoder: its entries, key and value. -/
abbrev Object := List (GoString × Value)

end json

namespace http

/-- One `Write` on a response writer: an encoded JSON object or raw bytes. -/
inductive Chunk where
  | json (o : json.Object)
  | raw (b : GoString)
deriving DecidableEq, Repr

/-- State of a Go `http.ResponseWriter` as implemented by the server.
`header` is the map returned by `Header()`; once `wroteHeader` is set the status line
`status` and the headers `sentHeader` are committed and cannot change; `body` lists the
writes that followed; `writeHeaderCalls` records every `WriteHeader` call made on the
writer, oldest first, whether it took effect or not. -/
structure ResponseWriter where
  header : Header
  wroteHeader : Bool
  status : Nat
  sentHeader : Header
  body : List Chunk
  writeHeaderCalls : List Nat

/-- The writer the server hands to a handler: nothing set, nothing written. -/
def ResponseWriter.fresh : ResponseWriter :=
  { header := Header.empty, wroteHeader := false, status := 0, sentHeader := Header.empty,
    body := [], writeHeaderCalls := [] }

/-- Go `ResponseWriter.WriteHeader(code)`: the first call commits the status line and a
snapshot of the header map; a later call is superfluous and changes nothing on the wire. -/
def ResponseWriter.WriteHeader (w : ResponseWriter) (code : Nat) : ResponseWriter :=
  if w.wroteHeader then
    { w with writeHeaderCalls := w.writeHeaderCalls ++ [code] }
  else
    { w with wroteHeader := true, status := code, sentHeader := w.header,
             writeHeaderCalls := w.writeHeaderCalls ++ [code] }

/-- Go `ResponseWriter.Write(data)`: commits status 200 first when no status was written,
then appends the data to the body. -/
def ResponseWriter.Write (w : ResponseWriter) (data : Chunk) : ResponseWriter :=
  let w1 := if w.wroteHeader then w else w.WriteHeader 200
  { w1 with body := w1.body ++ [data] }

end http

namespace textproto

/-- Library `isASCIISpace`: space, tab, line feed, carriage return. -/
def isASCIISpace (c : Char) : Bool :=
  c == ' ' || c == Char.ofNat 9 || c == Char.ofNat 10 || c == Char.ofNat 13

/-- Go `textproto.TrimString(s)`: `s` without leading and trailing ASCII space. -/
def TrimString (s : GoString) : GoString :=
  ((s.dropWhile isASCIISpace).reverse.dropWhile isASCIISpace).reverse

end textproto

namespace httpguts

/-- Library `trimOWS`: the value without leading and trailing spaces and tabs. -/
def trimOWS (s : GoString) : GoString :=
  ((s.dropWhile (fun c => c == ' ' || c == Char.ofNat 9)).reverse.dropWhile
    (fun c => c == ' ' || c == Char.ofNat 9)).reverse

/-- Library `tokenEqual`: equal length and bytewise equal up to ASCII case, with no byte
above 127. -/
def tokenEqual (t1 t2 : GoString) : Bool :=
  decide (t1.length = t2.length) &&
    (t1.zip t2).all (fun bt => decide (bt.1.toNat < 128) && bt.1.toLower == bt.2.toLower)

/-- Go `httpguts.HeaderValuesContainsToken(values, token)`: some value has `token` among
its comma-separated elements. -/
def HeaderValuesContainsToken (values : List GoString) (token : GoString) : Bool :=
  values.any (fun v => (strings.Split v ',').any (fun part => tokenEqual (trimOWS part) token))

end httpguts

namespace ascii

/-- Library `ascii.IsPrint(s)`: every byte is between space and tilde. -/
def IsPrint (s : GoString) : Bool :=
  s.all (fun c => decide (32 ≤ c.toNat) && decide (c.toNat ≤ 126))

end ascii

namespace httputil

/-- Library `singleJoiningSlash(a, b)`: concatenation with exactly one slash at the joint. -/
def singleJoiningSlash (a b : GoString) : GoString :=
  let aslash := strings.HasSuffix a ['/']
  let bslash := strings.HasPrefix b ['/']
  if aslash && bslash then a ++ b.drop 1
  else if !aslash && !bslash then a ++ ['/'] ++ b
  else a ++ b

/-- Library `joinURLPath(a, b)`, the joined `Path` and `RawPath`.  When neither URL records
a separate escaped path the paths are joined with `singleJoiningSlash`; otherwise the
joining slash is decided on the escaped paths.  `EscapedPath` is the library method
`(*url.URL).EscapedPath`. -/
def joinURLPath (EscapedPath : url.URL → GoString) (a b : url.URL) : GoString × GoString :=
  if a.RawPath = [] ∧ b.RawPath = [] then
    (singleJoiningSlash a.Path b.Path, [])
  else
    let apath := EscapedPath a
    let bpath := EscapedPath b
    let aslash := strings.HasSuffix apath ['/']
    let bslash := strings.HasPrefix bpath ['/']
    if aslash && bslash then (a.Path ++ b.Path.drop 1, apath ++ bpath.drop 1)
    else if !aslash && !bslash then (a.Path ++ ['/'] ++ b.Path, apath ++ ['/'] ++ bpath)
    else (a.Path ++ b.Path, apath ++ bpath)

/-- Whether `joinURLPath` decides the joining slash as `singleJoiningSlash` does on the
paths: neither URL records a separate escaped path, or the escaped path of `a` ends with a
slash exactly when its path does and the escaped path of `b` begins with a slash exactly
when its path does. -/
def joinsOnPath (EscapedPath : url.URL → GoString) (a b : url.URL) : Bool :=
  (decide (a.RawPath = []) && decide (b.RawPath = [])) ||
    ((strings.HasSuffix (EscapedPath a) ['/'] == strings.HasSuffix a.Path ['/']) &&
      (strings.HasPrefix (EscapedPath b) ['/'] == strings.HasPrefix b.Path ['/']))

/-- Library `rewriteRequestURL(req, target)`, the default director installed by
`NewSingleHostReverseProxy(target)`: scheme and host of the target, target path joined with
the request path by `joinURLPath`, target query joined with the request query. -/
def rewriteRequestURL (EscapedPath : url.URL → GoString) (req : http.Request)
    (target : url.URL) : http.Request :=
  let targetQuery := target.RawQuery
  { req with
    URL :=
      { Scheme := target.Scheme
        Host := target.Host
        Path := (joinURLPath EscapedPath target req.URL).1
        RawPath := (joinURLPath EscapedPath target req.URL).2
        RawQuery :=
          if targetQuery = [] ∨ req.URL.RawQuery = [] then targetQuery ++ req.URL.RawQuery
          else targetQuery ++ ['&'] ++ req.URL.RawQuery } }

/-- Library `copyHeader(dst, src)`: every value of `src` is added to `dst` under its key. -/
def copyHeader (dst src : http.Header) : http.Header :=
  fun k =>
    match src k with
    | none => dst k
    | some vv => some ((dst k).getD [] ++ vv)

/-- Library `hopHeaders`: the hop-by-hop headers removed from every proxied message. -/
def hopHeaders : List GoString :=
  ["Connection".toList, "Proxy-Connection".toList, "Keep-Alive".toList,
   "Proxy-Authenticate".toList, "Proxy-Authorization".toList, "Te".toList,
   "Trailer".toList, "Transfer-Encoding".toList, "Upgrade".toList]

/-- Library `removeHopByHopHeaders(h)`: deletes every header named in a `Connection` value,
then the headers of `hopHeaders`. -/
def removeHopByHopHeaders (h : http.Header) : http.Header :=
  let named :=
    ((h "Connection".toList).getD []).foldl
      (fun acc f =>
        (strings.Split f ',').foldl
          (fun acc sf =>
            if textproto.TrimString sf ≠ [] then acc.Del (textproto.TrimString sf) else acc)
          acc)
      h
  hopHeaders.foldl (fun acc f => acc.Del f) named

/-- Library `upgradeType(h)`: the `Upgrade` value when `Connection` holds the token
`Upgrade`, the empty string otherwise. -/
def upgradeType (h : http.Header) : GoString :=
  if httpguts.HeaderValuesContainsToken ((h "Connection".toList).getD []) "Upgrade".toList then
    h.Get "Upgrade".toList
  else []

/-- The `X-Forwarded-For` step of `ReverseProxy.ServeHTTP`: with a client address that
splits into host and port, the host is appended to the values already present and stored,
unless the entry is present with no value. -/
def setForwardedFor (h : http.Header) (clientIP : Option GoString) : http.Header :=
  match clientIP with
  | none => h
  | some ip =>
    match h "X-Forwarded-For".toList with
    | some [] => h
    | some prior =>
      h.Set "X-Forwarded-For".toList (strings.Join prior ", ".toList ++ ", ".toList ++ ip)
    | none => h.Set "X-Forwarded-For".toList ip

/-- The header map of the request `ReverseProxy.ServeHTTP` sends, from the header map `out`
the director left, the inbound header map `inbound` and the client host: hop-by-hop headers
removed, `Te: trailers` and the upgrade headers put back, `X-Forwarded-For` extended, an
absent `User-Agent` set to the empty string. -/
def outboundHeader (out inbound : http.Header) (clientIP : Option GoString) : http.Header :=
  let reqUpType := upgradeType out
  let h := removeHopByHopHeaders out
  let h :=
    if httpguts.HeaderValuesContainsToken ((inbound "Te".toList).getD []) "trailers".toList then
      h.Set "Te".toList "trailers".toList
    else h
  let h :=
    if reqUpType ≠ [] then
      (h.Set "Connection".toList "Upgrade".toList).Set "Upgrade".toList reqUpType
    else h
  let h := setForwardedFor h clientIP
  if h "User-Agent".toList = none then h.Set "User-Agent".toList [] else h

/-- Library `ReverseProxy.ServeHTTP` with a director and an error handler installed.  The
director runs on a clone of the inbound request.  A request that asks for an upgrade to a
protocol with a non-printable name goes to the error handler and nothing is sent.
Otherwise the header map becomes `outboundHeader`, one round trip is made, and either the
error handler is called with the transport error or the backend status, headers without
the hop-by-hop ones, and body are relayed.  `SplitHostPort` is `net.SplitHostPort`, giving
the host of an address or `none` for an error.  The result is the writer afterwards and the
outbound requests issued.  The text of the upgrade error is given without the quoting the
library applies to the protocol name, and the connection hijack that follows a 101 response
is not represented. -/
def ReverseProxy.ServeHTTP (director : http.Request → http.Request)
    (errorHandler : http.ResponseWriter → GoString → http.ResponseWriter)
    (SplitHostPort : GoString → Option GoString)
    (RoundTrip : http.Request → Except GoString http.Response)
    (rw : http.ResponseWriter) (req : http.Request) :
    http.ResponseWriter × List http.Request :=
  let outreq := director req
  let reqUpType := upgradeType outreq.Header
  if ascii.IsPrint reqUpType = false then
    (errorHandler rw ("client tried to switch to invalid protocol ".toList ++ reqUpType), [])
  else
    let outreq :=
      { outreq with
        Header := outboundHeader outreq.Header req.Header (SplitHostPort req.RemoteAddr) }
    match RoundTrip outreq with
    | .error err => (errorHandler rw err, [outreq])
    | .ok res =>
      let rw1 := { rw with header := copyHeader rw.header (removeHopByHopHeaders res.Header) }
      let rw2 := rw1.WriteHeader res.StatusCode
      (rw2.Write (.raw res.Body), [outreq])

end httputil

/-! ## config/config.go -/

namespace config

/-- Go `config.Route`: a route from a public path prefix to a backend service URL. -/
structure Route where
  Name : GoString
  PathPrefix : GoString
  TargetURL : GoString
  StripPrefix : GoString
deriving DecidableEq, Repr

end config

/-! ## gateway/router.go -/

namespace gateway

open config http

/-- Go `gateway.Router`: the routing table. -/
structure Router where
  Routes : List Route
deriving DecidableEq, Repr

/-- The `less` closure of `NewRouter`:
`len(sortedRoutes[i].PathPrefix) > len(sortedRoutes[j].PathPrefix)`. -/
def lessRoute (a b : Route) : Bool :=
  decide (a.PathPrefix.length > b.PathPrefix.length)

/-- The two slices `NewRouter` works with: the slice of the caller and the local
`sortedRoutes`. -/
structure NewRouterFrame where
  routes : List Route
  sortedRoutes : List Route
deriving DecidableEq, Repr

/-- Body of `NewRouter` up to the `return`: `make` and `copy` fill `sortedRoutes` from
`routes`, then `sort.SliceStable` reorders `sortedRoutes` in place.  No statement writes to
`routes`. -/
def NewRouter.run (routes : List Route) : NewRouterFrame :=
  let frame : NewRouterFrame := { routes := routes, sortedRoutes := routes }
  { frame with sortedRoutes := sort.SliceStable lessRoute frame.sortedRoutes }

/-- Go `NewRouter(routes)`: the router over the sorted copy.  The `error` result of the Go
function is `nil` on every path and is not represented. -/
def NewRouter (routes : List Route) : Router :=
  { Routes := (NewRouter.run routes).sortedRoutes }

/-- Go `(*Router).Route(r)`: the first route of the table, in table order, whose
`PathPrefix` is a prefix of `r.URL.Path`; `none` stands for the `nil` result. -/
def Router.Route (rt : Router) (r : Request) : Option Route :=
  rt.Routes.find? (fun route => strings.HasPrefix r.URL.Path route.PathPrefix)

/-! ## gateway/gateway.go -/

/-- Go `gateway.GatewayHandler`. -/
structure GatewayHandler where
  Router : Router
deriving DecidableEq, Repr

/-- Go `NewGatewayHandler(router)`. -/
def NewGatewayHandler (router : Router) : GatewayHandler :=
  { Router := router }

/-- The 404 body of `ServeHTTP`. -/
def notFoundBody (path : GoString) : json.Object :=
  [("error".toList, .str "Service not found".toList),
   ("path".toList, .str path),
   ("status".toList, .num 404)]

/-- The 500 body of `ServeHTTP`. -/
def invalidTargetBody : json.Object :=
  [("error".toList, .str "Internal server error: Invalid target URL".toList),
   ("status".toList, .num 500)]

/-- The 502 body of the proxy error handler. -/
def badGatewayBody (detail : GoString) : json.Object :=
  [("error".toList, .str "Error connecting to backend service".toList),
   ("detail".toList, .str detail),
   ("status".toList, .num 502)]

/-- The `proxy.Director` closure of `ServeHTTP`.  `r` is the inbound request captured by the
closure, `req` the outbound request the proxy passes in, `EscapedPath` the library method
`(*url.URL).EscapedPath`. -/
def Director (EscapedPath : url.URL → GoString) (route : Route) (targetURL : url.URL)
    (r : Request) (req : Request) : Request :=
  -- originalDirector(req)
  let req := httputil.rewriteRequestURL EscapedPath req targetURL
  let req := { req with Header := req.Header.Set "X-Forwarded-Host".toList
                                    (req.Header.Get "Host".toList) }
  let req := { req with Header := req.Header.Set "X-Origin-Host".toList targetURL.Host }
  let auth := r.Header.Get "Authorization".toList
  let req := if auth ≠ [] then
      { req with Header := req.Header.Set "Authorization".toList auth }
    else req
  let req :=
    if route.StripPrefix ≠ [] ∧ strings.HasPrefix req.URL.Path route.StripPrefix = true then
      let path := strings.TrimPrefix req.URL.Path route.StripPrefix
      let path := if ¬ strings.HasPrefix path ['/'] = true then ['/'] ++ path else path
      { req with URL := { req.URL with Path := path } }
    else if strings.HasPrefix req.URL.Path route.PathPrefix = true ∧ route.StripPrefix = [] then
      let path := strings.TrimPrefix req.URL.Path route.PathPrefix
      let path := if ¬ strings.HasPrefix path ['/'] = true then ['/'] ++ path else path
      { req with URL := { req.URL with Path := path } }
    else req
  { req with URL := { req.URL with RawPath := EscapedPath req.URL } }

/-- The `proxy.ErrorHandler` closure of `ServeHTTP`; `err` is the text of the transport
error, `err.Error()`. -/
def ErrorHandler (rw : ResponseWriter) (err : GoString) : ResponseWriter :=
  if rw.header.Get "status".toList = [] then
    let rw := { rw with header := rw.header.Set "Content-Type".toList "application/json".toList }
    let rw := rw.WriteHeader 502
    rw.Write (.json (badGatewayBody err))
  else rw

/-- Go `(*GatewayHandler).ServeHTTP(w, r)`.  `Parse` is `url.Parse` (`none` for an error),
`SplitHostPort` is `net.SplitHostPort`, `RoundTrip` the transport of the proxy.  The result
is the response writer when the handler returns and the outbound requests it issued. -/
def GatewayHandler.ServeHTTP (gh : GatewayHandler) (Parse : GoString → Option url.URL)
    (EscapedPath : url.URL → GoString) (SplitHostPort : GoString → Option GoString)
    (RoundTrip : Request → Except GoString Response)
    (w : ResponseWriter) (r : Request) : ResponseWriter × List Request :=
  match gh.Router.Route r with
  | none =>
    let w := { w with header := w.header.Set "Content-Type".toList "application/json".toList }
    let w := w.WriteHeader 404
    (w.Write (.json (notFoundBody r.URL.Path)), [])
  | some route =>
    match Parse route.TargetURL with
    | none =>
      let w := { w with header := w.header.Set "Content-Type".toList "application/json".toList }
      let w := w.WriteHeader 500
      (w.Write (.json invalidTargetBody), [])
    | some targetURL =>
      httputil.ReverseProxy.ServeHTTP (fun req => Director EscapedPath route targetURL r req)
        ErrorHandler SplitHostPort RoundTrip w r

/-! ## The rewriting rule as the specification words it -/

/-- Effective strip value of the specification: `stripPrefix` if non-empty, else
`pathPrefix`. -/
def specStrip (route : Route) : GoString :=
  if route.StripPrefix ≠ [] then route.StripPrefix else route.PathPrefix

/-- Rewritten path of the specification: remove the effective strip value when the inbound
path starts with it, leave the path alone otherwise, then prepend a slash when the result
does not start with one. -/
def specRewrite (route : Route) (p : GoString) : GoString :=
  let s := specStrip route
  let q := if s <+: p then p.drop s.length else p
  if ['/'] <+: q then q else '/' :: q

end gateway

/-! ## main.go and sample inputs -/

namespace main

open config

/-- The route list `cfg.Routes` of `main`. -/
def cfgRoutes : List Route :=
  [{ Name := "ServiceA".toList, PathPrefix := "/service-a".toList,
     TargetURL := "http://localhost:8081".toList, StripPrefix := [] },
   { Name := "ServiceB".toList, PathPrefix := "/service-b".toList,
     TargetURL := "http://localhost:8082".toList, StripPrefix := [] },
   { Name := "ServiceCSpecific".toList, PathPrefix := "/service-c/specific".toList,
     TargetURL := "http://localhost:8083".toList, StripPrefix := "/service-c/specific".toList },
   { Name := "ServiceCGeneral".toList, PathPrefix := "/service-c".toList,
     TargetURL := "http://localhost:8083".toList, StripPrefix := "/service-c".toList }]

end main

namespace sample

open config http

/-- A `GET` request for `path` as the server hands it to the handler: the host sent by the
client is in `Host`, the header map holds `header` and no `Host` entry. -/
def request (host path : String) (header : Header) : Request :=
  { Method := "GET".toList
    URL := { Scheme := [], Host := [], Path := path.toList, RawPath := [], RawQuery := [] }
    Host := host.toList
    Header := header
    RemoteAddr := "192.0.2.7:40000".toList }

/-- The URL `url.Parse` returns for `http://` followed by `host` and `path`. -/
def target (host path : String) : url.URL :=
  { Scheme := "http".toList, Host := host.toList, Path := path.toList, RawPath := [],
    RawQuery := [] }

/-- A route with the given prefix and strip prefix. -/
def route (name pathPrefix stripPrefix : String) : Route :=
  { Name := name.toList, PathPrefix := pathPrefix.toList,
    TargetURL := "http://localhost:8083".toList, StripPrefix := stripPrefix.toList }

/-- A general route declared before a more specific one. -/
def nestedRoutes : List Route :=
  [route "general" "/service-c" "", route "specific" "/service-c/specific" ""]

/-- Two routes with the same prefix, hence of equal length, declared after a longer route
that does not match the paths under `/api`. -/
def tiedRoutes : List Route :=
  [route "other" "/zzzzzzz" "", route "first" "/api" "", route "second" "/api" ""]

/-- The request `GET /service-c/specific/x`. -/
def nestedRequest : Request := request "example.com" "/service-c/specific/x" Header.empty

/-- The request `GET /api/x`. -/
def tiedRequest : Request := request "example.com" "/api/x" Header.empty

/-- The request `GET /unknown`. -/
def unknownRequest : Request := request "example.com" "/unknown" Header.empty

/-- The request `GET /service-a/x` with `Authorization: Bearer xyz`. -/
def bearerRequest : Request :=
  request "example.com" "/service-a/x"
    (Header.empty.Set "Authorization".toList "Bearer xyz".toList)

/-- The request `GET /service-a/x` without headers. -/
def plainRequest : Request := request "example.com" "/service-a/x" Header.empty

/-- The request `GET /service-a/x` with `Authorization: Bearer xyz` and
`Connection: Authorization`. -/
def hopRequest : Request :=
  request "example.com" "/service-a/x"
    ((Header.empty.Set "Authorization".toList "Bearer xyz".toList).Set
      "Connection".toList "Authorization".toList)

/-- The first route of `main`. -/
def serviceA : Route :=
  { Name := "ServiceA".toList, PathPrefix := "/service-a".toList,
    TargetURL := "http://localhost:8081".toList, StripPrefix := [] }

/-- The result of `url.Parse` on the target URLs of `main`. -/
def parse (s : GoString) : Option url.URL :=
  if s = "http://localhost:8081".toList then some (target "localhost:8081" "")
  else if s = "http://localhost:8082".toList then some (target "localhost:8082" "")
  else if s = "http://localhost:8083".toList then some (target "localhost:8083" "")
  else none

/-- The host of an address of the form `host:port` without brackets. -/
def splitHostPort (addr : GoString) : Option GoString :=
  some (addr.takeWhile (fun c => c != ':'))

/-- An escaped-path method for sample runs: a path without bytes to escape is its own
escaped form. -/
def escapedPath (u : url.URL) : GoString := u.Path

/-- A transport whose every round trip fails. -/
def refused (_ : Request) : Except GoString Response :=
  .error "connection refused".toList

/-- A writer on which a handler has already sent status 200 and part of a body. -/
def startedWriter : ResponseWriter :=
  { header := Header.empty, wroteHeader := true, status := 200, sentHeader := Header.empty,
    body := [.raw "partial".toList], writeHeaderCalls := [200] }

/-- A writer on which nothing was sent, whose header map holds a `Status` entry. -/
def statusHeaderWriter : ResponseWriter :=
  { ResponseWriter.fresh with
    header := Header.empty.Set "Status".toList "queued".toList }

end sample

/-! ## Library facts: prefixes and the stable sort -/

theorem strings.HasPrefix_iff (s pre : GoString) :
    strings.HasPrefix s pre = true ↔ pre <+: s := by
  unfold strings.HasPrefix
  rw [List.prefix_iff_eq_take]
  constructor
  · intro h
    simp only [Bool.and_eq_true, decide_eq_true_eq, beq_iff_eq] at h
    exact h.2.symm
  · intro h
    simp only [Bool.and_eq_true, decide_eq_true_eq, beq_iff_eq]
    refine ⟨?_, h.symm⟩
    have := congrArg List.length h
    simp at this
    omega

namespace sort

theorem siftLeft_perm {α : Type} (less : α → α → Bool) (x : α) (ys : List α) :
    (siftLeft less x ys).Perm (x :: ys) := by
  induction ys with
  | nil => simp [siftLeft]
  | cons y ys ih =>
    simp only [siftLeft]
    split
    · exact (List.Perm.cons y ih).trans (List.Perm.swap x y ys)
    · exact List.Perm.refl _

theorem siftLeft_sorted {α : Type} (key : α → Nat) (less : α → α → Bool)
    (hless : ∀ a b, less a b = true ↔ key b < key a) (x : α) (ys : List α)
    (h : ys.Pairwise (fun a b => key a ≤ key b)) :
    (siftLeft less x ys).Pairwise (fun a b => key a ≤ key b) := by
  induction ys with
  | nil => simp [siftLeft]
  | cons y ys ih =>
    simp only [siftLeft]
    rw [List.pairwise_cons] at h
    split
    · rename_i hxy
      rw [hless] at hxy
      rw [List.pairwise_cons]
      refine ⟨?_, ih h.2⟩
      intro b hb
      rcases List.mem_cons.1 ((siftLeft_perm less x ys).mem_iff.1 hb) with rfl | hb
      · exact Nat.le_of_lt hxy
      · exact h.1 b hb
    · rename_i hxy
      rw [hless] at hxy
      rw [List.pairwise_cons]
      refine ⟨?_, List.pairwise_cons.2 h⟩
      intro b hb
      rcases List.mem_cons.1 hb with rfl | hb
      · omega
      · have := h.1 b hb
        omega

theorem siftLeft_filter {α : Type} (key : α → Nat) (less : α → α → Bool)
    (hless : ∀ a b, less a b = true ↔ key b < key a) (n : Nat) (x : α)
    (ys : List α) :
    (siftLeft less x ys).filter (fun a => key a == n) = (x :: ys).filter (fun a => key a == n) := by
  induction ys with
  | nil => simp [siftLeft]
  | cons y ys ih =>
    simp only [siftLeft]
    split
    · rename_i hxy
      rw [hless] at hxy
      rw [List.filter_cons, ih]
      by_cases hx : key x = n <;> by_cases hy : key y = n
      · omega
      · simp [List.filter_cons, hx, hy]
      · simp [List.filter_cons, hx, hy]
      · simp [List.filter_cons, hx, hy]
    · rfl

theorem foldl_siftLeft_perm {α : Type} (less : α → α → Bool) (data done : List α) :
    (data.foldl (fun done x => siftLeft less x done) done).Perm (data ++ done) := by
  induction data generalizing done with
  | nil => simp
  | cons x xs ih =>
    simp only [List.foldl_cons]
    refine (ih _).trans ?_
    refine ((siftLeft_perm less x done).append_left xs).trans ?_
    simp

theorem foldl_siftLeft_sorted {α : Type} (key : α → Nat) (less : α → α → Bool)
    (hless : ∀ a b, less a b = true ↔ key b < key a)
    (data done : List α) (h : done.Pairwise (fun a b => key a ≤ key b)) :
    (data.foldl (fun done x => siftLeft less x done) done).Pairwise
      (fun a b => key a ≤ key b) := by
  induction data generalizing done with
  | nil => simpa using h
  | cons x xs ih =>
    simp only [List.foldl_cons]
    exact ih _ (siftLeft_sorted key less hless x done h)

theorem foldl_siftLeft_filter {α : Type} (key : α → Nat) (less : α → α → Bool)
    (hless : ∀ a b, less a b = true ↔ key b < key a) (n : Nat)
    (data done : List α) :
    (data.foldl (fun done x => siftLeft less x done) done).filter (fun a => key a == n)
      = (data.filter (fun a => key a == n)).reverse ++ done.filter (fun a => key a == n) := by
  induction data generalizing done with
  | nil => simp
  | cons x xs ih =>
    simp only [List.foldl_cons]
    rw [ih, siftLeft_filter key less hless]
    by_cases hx : key x = n
    · simp [List.filter_cons, hx]
    · simp [List.filter_cons, hx]

theorem SliceStable_perm {α : Type} (less : α → α → Bool) (x : List α) :
    (SliceStable less x).Perm x := by
  unfold SliceStable insertionSort
  refine (List.reverse_perm _).trans ?_
  simpa using foldl_siftLeft_perm less x []

theorem SliceStable_sorted {α : Type} (key : α → Nat) (less : α → α → Bool)
    (hless : ∀ a b, less a b = true ↔ key b < key a) (x : List α) :
    (SliceStable less x).Pairwise (fun a b => key b ≤ key a) := by
  unfold SliceStable insertionSort
  rw [List.pairwise_reverse]
  exact foldl_siftLeft_sorted key less hless x [] List.Pairwise.nil

theorem SliceStable_filter {α : Type} (key : α → Nat) (less : α → α → Bool)
    (hless : ∀ a b, less a b = true ↔ key b < key a) (n : Nat)
    (x : List α) :
    (SliceStable less x).filter (fun a => key a == n) = x.filter (fun a => key a == n) := by
  unfold SliceStable insertionSort
  rw [List.filter_reverse, foldl_siftLeft_filter key less hless]
  simp

theorem stable_sort_unique {α : Type} (key : α → Nat) (l₁ l₂ : List α)
    (h₁ : l₁.Pairwise (fun a b => key b ≤ key a)) (h₂ : l₂.Pairwise (fun a b => key b ≤ key a))
    (hf : ∀ n, l₁.filter (fun a => key a == n) = l₂.filter (fun a => key a == n)) :
    l₁ = l₂ := by
  induction l₁ generalizing l₂ with
  | nil =>
    cases l₂ with
    | nil => rfl
    | cons b t =>
      have := hf (key b)
      simp [List.filter_cons] at this
  | cons a t₁ ih =>
    cases l₂ with
    | nil =>
      have := hf (key a)
      simp [List.filter_cons] at this
    | cons b t₂ =>
      rw [List.pairwise_cons] at h₁ h₂
      have hab : key a = key b := by
        have ha : a ∈ (b :: t₂).filter (fun x => key x == key a) := by
          rw [← hf]; simp [List.filter_cons]
        have hb : b ∈ (a :: t₁).filter (fun x => key x == key b) := by
          rw [hf]; simp [List.filter_cons]
        have ha' := (List.mem_filter.1 ha).1
        have hb' := (List.mem_filter.1 hb).1
        rcases List.mem_cons.1 ha' with rfl | ha'
        · rfl
        · rcases List.mem_cons.1 hb' with rfl | hb'
          · rfl
          · have := h₂.1 a ha'
            have := h₁.1 b hb'
            omega
      have heq : a = b := by
        have := hf (key a)
        simp [List.filter_cons, hab] at this
        exact this.1
      subst heq
      congr 1
      apply ih t₂ h₁.2 h₂.2
      intro n
      have := hf n
      by_cases hn : key a = n
      · simp [List.filter_cons, hn] at this
        exact this
      · simp [List.filter_cons, hn] at this
        exact this

end sort

/-! ## The route table -/

namespace gateway
open config http

theorem lessRoute_iff (a b : Route) :
    lessRoute a b = true ↔ b.PathPrefix.length < a.PathPrefix.length := by
  simp [lessRoute]

theorem NewRouter_Routes (routes : List Route) :
    (NewRouter routes).Routes = sort.SliceStable lessRoute routes := rfl

theorem NewRouter_mem (routes : List Route) (m : Route) :
    m ∈ (NewRouter routes).Routes ↔ m ∈ routes := by
  rw [NewRouter_Routes]
  exact (sort.SliceStable_perm lessRoute routes).mem_iff

theorem NewRouter_sorted (routes : List Route) :
    (NewRouter routes).Routes.Pairwise
      (fun a b => b.PathPrefix.length ≤ a.PathPrefix.length) := by
  rw [NewRouter_Routes]
  exact sort.SliceStable_sorted (fun r => r.PathPrefix.length) lessRoute lessRoute_iff routes

theorem NewRouter_filter (routes : List Route) (n : Nat) :
    (NewRouter routes).Routes.filter (fun r => r.PathPrefix.length == n)
      = routes.filter (fun r => r.PathPrefix.length == n) := by
  rw [NewRouter_Routes]
  exact sort.SliceStable_filter (fun r => r.PathPrefix.length) lessRoute lessRoute_iff n routes

/-- Any stable arrangement of the input by descending prefix length is the table of
`NewRouter`, whichever stable sorting routine produced it. -/
theorem NewRouter_table_unique (routes table : List Route)
    (hsorted : table.Pairwise (fun a b => b.PathPrefix.length ≤ a.PathPrefix.length))
    (hstable : ∀ n, table.filter (fun r => r.PathPrefix.length == n)
      = routes.filter (fun r => r.PathPrefix.length == n)) :
    table = (NewRouter routes).Routes :=
  sort.stable_sort_unique (fun r => r.PathPrefix.length) table (NewRouter routes).Routes
    hsorted (NewRouter_sorted routes) (fun n => (hstable n).trans (NewRouter_filter routes n).symm)

/-- What a hit of `Route` on the sorted table means in terms of the input list. -/
theorem Route_some_spec (routes : List Route) (r : Request) (m : Route)
    (h : (NewRouter routes).Route r = some m) :
    m ∈ routes ∧ m.PathPrefix <+: r.URL.Path ∧
    ∀ route ∈ routes, route.PathPrefix <+: r.URL.Path →
      route.PathPrefix.length ≤ m.PathPrefix.length := by
  unfold Router.Route at h
  obtain ⟨hm, as, bs, hsplit, has⟩ := List.find?_eq_some.1 h
  have hmem : m ∈ (NewRouter routes).Routes := by rw [hsplit]; simp
  refine ⟨(NewRouter_mem routes m).1 hmem, (strings.HasPrefix_iff _ _).1 hm, ?_⟩
  intro route hroute hpre
  have hr : route ∈ (NewRouter routes).Routes := (NewRouter_mem routes route).2 hroute
  have hsorted := NewRouter_sorted routes
  rw [hsplit] at hr hsorted
  rcases List.mem_append.1 hr with hr | hr
  · have := has route hr
    rw [(strings.HasPrefix_iff _ _).2 hpre] at this
    simp at this
  · rcases List.mem_cons.1 hr with rfl | hr
    · exact Nat.le_refl _
    · have h2 := (List.pairwise_append.1 hsorted).2.1
      exact (List.pairwise_cons.1 h2).1 route hr

theorem Route_isSome (routes : List Route) (r : Request)
    (h : ∃ route ∈ routes, route.PathPrefix <+: r.URL.Path) :
    ∃ m, (NewRouter routes).Route r = some m := by
  obtain ⟨route, hroute, hpre⟩ := h
  cases hfind : (NewRouter routes).Route r with
  | some m => exact ⟨m, rfl⟩
  | none =>
    unfold Router.Route at hfind
    rw [List.find?_eq_none] at hfind
    have := hfind route ((NewRouter_mem routes route).2 hroute)
    rw [(strings.HasPrefix_iff _ _).2 hpre] at this
    simp at this

/-- The hit of `Route` on the sorted table is the first route of the input list that
matches and has the length of the hit. -/
theorem Route_eq_find_input (routes : List Route) (r : Request) (m : Route)
    (h : (NewRouter routes).Route r = some m) :
    routes.find? (fun route => (route.PathPrefix.length == m.PathPrefix.length) &&
      strings.HasPrefix r.URL.Path route.PathPrefix) = some m := by
  have key : ((NewRouter routes).Routes.filter
      (fun r => r.PathPrefix.length == m.PathPrefix.length)).find?
      (fun route => strings.HasPrefix r.URL.Path route.PathPrefix) = some m := by
    rw [List.find?_filter]
    unfold Router.Route at h
    obtain ⟨hm, as, bs, hsplit, has⟩ := List.find?_eq_some.1 h
    rw [List.find?_eq_some]
    refine ⟨by simp [hm], as, bs, hsplit, ?_⟩
    intro a ha
    have := has a ha
    simp only [Bool.not_eq_true', Bool.not_eq_eq_eq_not, Bool.not_true] at this ⊢
    simp [this]
  rw [NewRouter_filter, List.find?_filter] at key
  simpa using key

/-- C1 (longest prefix wins).  When some route of the input list has a `PathPrefix` that is a
prefix of the request path, `Route` on the table built by `NewRouter` returns a route of the
list whose `PathPrefix` is a prefix of the path and is at least as long as the `PathPrefix`
of every route of the list that is a prefix of the path. -/
theorem Route_longest_prefix_wins (routes : List Route) (r : Request)
    (h : ∃ route ∈ routes, route.PathPrefix <+: r.URL.Path) :
    ∃ m, (NewRouter routes).Route r = some m ∧ m ∈ routes ∧ m.PathPrefix <+: r.URL.Path ∧
      ∀ route ∈ routes, route.PathPrefix <+: r.URL.Path →
        route.PathPrefix.length ≤ m.PathPrefix.length := by
  obtain ⟨m, hm⟩ := Route_isSome routes r h
  exact ⟨m, hm, Route_some_spec routes r m hm⟩

/-- C2 (stable tie-break).  Let the routes declared at positions `i < j` have prefixes of
equal length that are both prefixes of the request path.  Then `Route` on the table built by
`NewRouter` returns the route declared at a position `k` other than `j`: that route
matches the path, no matching route is longer than it, and every matching route declared
before `k` is strictly shorter, so `k` is the first declared position among the matching
routes of maximal prefix length. -/
theorem Route_stable_tie_break (routes : List Route) (r : Request) (i j : Nat)
    (ri rj : Route) (hij : i < j) (hi : routes[i]? = some ri) (hj : routes[j]? = some rj)
    (hlen : ri.PathPrefix.length = rj.PathPrefix.length)
    (hpi : ri.PathPrefix <+: r.URL.Path) (hpj : rj.PathPrefix <+: r.URL.Path) :
    ∃ k m, routes[k]? = some m ∧ (NewRouter routes).Route r = some m ∧ k ≠ j ∧
      m.PathPrefix <+: r.URL.Path ∧
      (∀ (n : Nat) (route : Route), routes[n]? = some route →
        route.PathPrefix <+: r.URL.Path →
        route.PathPrefix.length ≤ m.PathPrefix.length) ∧
      (∀ (n : Nat) (route : Route), n < k → routes[n]? = some route →
        route.PathPrefix <+: r.URL.Path →
        route.PathPrefix.length < m.PathPrefix.length) := by
  have himem : ri ∈ routes := List.mem_iff_getElem?.2 ⟨i, hi⟩
  obtain ⟨m, hm⟩ := Route_isSome routes r ⟨ri, himem, hpi⟩
  obtain ⟨_, hmpre, hmax⟩ := Route_some_spec routes r m hm
  have hfind := Route_eq_find_input routes r m hm
  obtain ⟨_, k, hk, hkm, hbefore⟩ := List.find?_eq_some_iff_getElem.1 hfind
  have hfirst : ∀ (n : Nat) (route : Route), n < k → routes[n]? = some route →
      route.PathPrefix <+: r.URL.Path → route.PathPrefix.length < m.PathPrefix.length := by
    intro n route hn hroute hpre
    obtain ⟨hn', hget⟩ := List.getElem?_eq_some.1 hroute
    have h1 := hbefore n hn
    rw [hget, (strings.HasPrefix_iff _ _).2 hpre] at h1
    have h2 := hmax route (List.mem_iff_getElem?.2 ⟨n, hroute⟩) hpre
    simp at h1
    omega
  refine ⟨k, m, List.getElem?_eq_some.2 ⟨hk, hkm⟩, hm, ?_, hmpre, ?_, hfirst⟩
  · intro hkj
    subst hkj
    have := hfirst i ri hij hi hpi
    have hmj : m = rj := by
      have := List.getElem?_eq_some.2 ⟨hk, hkm⟩
      rw [hj] at this
      exact (Option.some.inj this).symm
    subst hmj
    omega
  · intro n route hroute hpre
    exact hmax route (List.mem_iff_getElem?.2 ⟨n, hroute⟩) hpre

/-- C3 (the table is a stable sort of the input).  `Router.Routes` is a permutation of the
input, adjacent entries have non-increasing `len(PathPrefix)`, for every length the routes
of that length appear in the table in the order they have in the input, and the slice of the
caller holds the same list after `NewRouter` as before. -/
theorem NewRouter_stable_sort (routes : List Route) :
    (NewRouter routes).Routes.Perm routes ∧
    (NewRouter routes).Routes.Chain'
      (fun a b => b.PathPrefix.length ≤ a.PathPrefix.length) ∧
    (∀ n, (NewRouter routes).Routes.filter (fun r => r.PathPrefix.length == n)
      = routes.filter (fun r => r.PathPrefix.length == n)) ∧
    (NewRouter.run routes).routes = routes :=
  ⟨sort.SliceStable_perm lessRoute routes, (NewRouter_sorted routes).chain',
    NewRouter_filter routes, rfl⟩

/-! ## Path rewriting -/

theorem singleJoiningSlash_nil_left (p : GoString) :
    httputil.singleJoiningSlash [] p = if ['/'] <+: p then p else '/' :: p := by
  unfold httputil.singleJoiningSlash
  have h1 : strings.HasSuffix [] ['/'] = false := by decide
  simp only [h1, Bool.false_and, Bool.not_false, Bool.true_and, Bool.false_eq_true, if_false]
  by_cases hp : ['/'] <+: p
  · simp [(strings.HasPrefix_iff p ['/']).2 hp, hp]
  · have : strings.HasPrefix p ['/'] = false := by
      rw [← Bool.not_eq_true, strings.HasPrefix_iff]; exact hp
    simp [this, hp]

theorem singleJoiningSlash_slash_left (a p : GoString) (ha : ['/'] <+: a) :
    ['/'] <+: httputil.singleJoiningSlash a p := by
  obtain ⟨t, rfl⟩ := ha
  unfold httputil.singleJoiningSlash
  simp only []
  split
  · exact ⟨t ++ p.drop 1, by simp⟩
  · split
    · exact ⟨t ++ ['/'] ++ p, by simp⟩
    · exact ⟨t ++ p, by simp⟩

theorem TrimPrefix_eq (s pre : GoString) :
    strings.TrimPrefix s pre = if pre <+: s then s.drop pre.length else s := by
  unfold strings.TrimPrefix
  by_cases h : pre <+: s
  · simp [(strings.HasPrefix_iff s pre).2 h, h]
  · have : strings.HasPrefix s pre = false := by
      rw [← Bool.not_eq_true, strings.HasPrefix_iff]; exact h
    simp [this, h]

/-- When the joining slash is decided as on the paths, the joined path is the one
`singleJoiningSlash` gives, in both branches of `joinURLPath`. -/
theorem joinURLPath_of_joinsOnPath (EscapedPath : url.URL → GoString) (a b : url.URL)
    (h : httputil.joinsOnPath EscapedPath a b = true) :
    (httputil.joinURLPath EscapedPath a b).1 = httputil.singleJoiningSlash a.Path b.Path := by
  unfold httputil.joinURLPath
  by_cases hraw : a.RawPath = [] ∧ b.RawPath = []
  · rw [if_pos hraw]
  · rw [if_neg hraw]
    unfold httputil.joinsOnPath at h
    have hraw' : (decide (a.RawPath = []) && decide (b.RawPath = [])) = false := by
      rw [← Bool.not_eq_true]
      simpa using hraw
    rw [hraw', Bool.false_or, Bool.and_eq_true, beq_iff_eq, beq_iff_eq] at h
    unfold httputil.singleJoiningSlash
    simp only [h.1, h.2]
    split_ifs <;> rfl

/-- The path the director leaves in the outbound URL, written with list prefixes. -/
theorem Director_Path (EscapedPath : url.URL → GoString) (route : Route) (targetURL : url.URL)
    (r req : Request) :
    (Director EscapedPath route targetURL r req).URL.Path =
      if route.StripPrefix ≠ [] ∧
          route.StripPrefix <+: (httputil.joinURLPath EscapedPath targetURL req.URL).1 then
        (if ['/'] <+: ((httputil.joinURLPath EscapedPath targetURL req.URL).1).drop
              route.StripPrefix.length
          then ((httputil.joinURLPath EscapedPath targetURL req.URL).1).drop
              route.StripPrefix.length
          else '/' :: ((httputil.joinURLPath EscapedPath targetURL req.URL).1).drop
              route.StripPrefix.length)
      else if route.PathPrefix <+: (httputil.joinURLPath EscapedPath targetURL req.URL).1 ∧
          route.StripPrefix = [] then
        (if ['/'] <+: ((httputil.joinURLPath EscapedPath targetURL req.URL).1).drop
              route.PathPrefix.length
          then ((httputil.joinURLPath EscapedPath targetURL req.URL).1).drop
              route.PathPrefix.length
          else '/' :: ((httputil.joinURLPath EscapedPath targetURL req.URL).1).drop
              route.PathPrefix.length)
      else (httputil.joinURLPath EscapedPath targetURL req.URL).1 := by
  unfold Director
  simp only [httputil.rewriteRequestURL, strings.HasPrefix_iff, TrimPrefix_eq]
  split_ifs <;> first | rfl | simp_all

theorem prefix_singleton_slash (s : GoString) : s <+: ['/'] ↔ s = [] ∨ s = ['/'] := by
  constructor
  · intro h
    have hl := h.length_le
    match s, h, hl with
    | [], _, _ => exact Or.inl rfl
    | [c], h, _ =>
      right
      obtain ⟨t, ht⟩ := h
      simp at ht
      rw [ht.1]
    | _ :: _ :: _, _, hl => simp at hl
  · rintro (rfl | rfl)
    · exact List.nil_prefix
    · exact List.prefix_refl _

/-- C4 (path rewriting refines the specified rule).  For every route, a target without a
path component and an inbound request path, the path the director leaves in the outbound
URL is the rewritten path of the specification: the effective strip value removed when the
path starts with it, then a slash prepended when missing.  An inbound request path is empty
or begins with a slash, as does every path matched by a route whose prefix begins with a
slash; and the library decides the joining slash as on the paths, which it does when no
escaped path is recorded and for every request URL the server has parsed. -/
theorem Director_path_refines_spec (EscapedPath : url.URL → GoString) (route : Route)
    (targetURL : url.URL) (r req : Request)
    (htarget : targetURL.Path = [])
    (hjoin : httputil.joinsOnPath EscapedPath targetURL req.URL = true)
    (hp : req.URL.Path = [] ∨ ['/'] <+: req.URL.Path) :
    (Director EscapedPath route targetURL r req).URL.Path = specRewrite route req.URL.Path := by
  rw [Director_Path, joinURLPath_of_joinsOnPath EscapedPath targetURL req.URL hjoin, htarget,
    singleJoiningSlash_nil_left]
  unfold specRewrite specStrip
  rcases hp with hp | hp
  · rw [hp]
    have h0 : ¬ (['/'] <+: ([] : GoString)) := by simp
    simp only [h0, if_false, List.prefix_nil, prefix_singleton_slash]
    by_cases hs : route.StripPrefix = []
    · by_cases hpp : route.PathPrefix = []
      · simp [hs, hpp]
      · by_cases hpp2 : route.PathPrefix = ['/']
        · simp [hs, hpp2]
        · simp [hs, hpp, hpp2]
    · by_cases hs2 : route.StripPrefix = ['/']
      · simp [hs2]
      · simp [hs, hs2]
  · simp only [hp, if_true]
    by_cases hs : route.StripPrefix = []
    · by_cases h1 : route.PathPrefix <+: req.URL.Path
      · simp [hs, h1]
      · simp [hs, h1, hp]
    · simp only [hs, ne_eq, not_false_eq_true, true_and, and_false, if_false, if_true]
      by_cases h1 : route.StripPrefix <+: req.URL.Path
      · simp [h1]
      · simp [h1, hp]

/-- For a route whose prefix begins with a slash, a path it matches and a target whose path
is empty or begins with a slash, the outbound path begins with a slash, whatever the strip
prefix. -/
theorem Director_path_slash_led (EscapedPath : url.URL → GoString) (route : Route)
    (targetURL : url.URL) (r req : Request)
    (hpp : ['/'] <+: route.PathPrefix)
    (hmatch : route.PathPrefix <+: req.URL.Path)
    (hjoin : httputil.joinsOnPath EscapedPath targetURL req.URL = true)
    (htarget : targetURL.Path = [] ∨ ['/'] <+: targetURL.Path) :
    (Director EscapedPath route targetURL r req).URL.Path ≠ [] ∧
    ['/'] <+: (Director EscapedPath route targetURL r req).URL.Path := by
  have hp : ['/'] <+: req.URL.Path := hpp.trans hmatch
  have hjoin2 : ['/'] <+: (httputil.joinURLPath EscapedPath targetURL req.URL).1 := by
    rw [joinURLPath_of_joinsOnPath EscapedPath targetURL req.URL hjoin]
    rcases htarget with ht | ht
    · rw [ht, singleJoiningSlash_nil_left, if_pos hp]; exact hp
    · exact singleJoiningSlash_slash_left _ _ ht
  have hslash : ['/'] <+: (Director EscapedPath route targetURL r req).URL.Path := by
    rw [Director_Path]
    split_ifs <;> first | assumption | exact ⟨_, rfl⟩
  refine ⟨?_, hslash⟩
  intro h
  rw [h] at hslash
  simp at hslash

/-- C5 (the prefix that is the whole path is not stripped under a target with a base path).
With the route `/service-c`, whose effective strip value is `/service-c`, the target
`http://host/base` and the inbound path `/service-c`, the rewritten path of the
specification is the single slash, and the target path joined with it is `/base/`.  The
director sends `/base/service-c`: it looks for the prefix in the path already joined with
the target path and strips nothing. -/
theorem Director_keeps_whole_path_prefix :
    ['/'] <+: (sample.route "c" "/service-c" "").PathPrefix ∧
    (sample.route "c" "/service-c" "").PathPrefix
      <+: (sample.request "example.com" "/service-c" Header.empty).URL.Path ∧
    specStrip (sample.route "c" "/service-c" "")
      = (sample.request "example.com" "/service-c" Header.empty).URL.Path ∧
    specRewrite (sample.route "c" "/service-c" "") "/service-c".toList = "/".toList ∧
    httputil.singleJoiningSlash "/base".toList
        (specRewrite (sample.route "c" "/service-c" "") "/service-c".toList)
      = "/base/".toList ∧
    (Director sample.escapedPath (sample.route "c" "/service-c" "")
        (sample.target "host" "/base")
        (sample.request "example.com" "/service-c" Header.empty)
        (sample.request "example.com" "/service-c" Header.empty)).URL.Path
      = "/base/service-c".toList := by
  decide

/-- C10 (the prefix is stripped after the join with the target path).  With target
`http://host/base`, prefix `/service-a` and inbound path `/service-a/foo` the director
leaves `/base/service-a/foo` in the outbound URL, while the target path joined with the
rewritten inbound path is `/base/foo`. -/
theorem Director_strips_after_join :
    (Director sample.escapedPath (sample.route "ServiceA" "/service-a" "")
        (sample.target "host" "/base")
        (sample.request "example.com" "/service-a/foo" Header.empty)
        (sample.request "example.com" "/service-a/foo" Header.empty)).URL.Path
      = "/base/service-a/foo".toList ∧
    httputil.singleJoiningSlash "/base".toList
        (specRewrite (sample.route "ServiceA" "/service-a" "") "/service-a/foo".toList)
      = "/base/foo".toList := by
  decide

/-! ## Header propagation -/

theorem Header_Set_same (h : Header) (key value : GoString) :
    (h.Set key value) (CanonicalMIMEHeaderKey key) = some [value] := by
  simp [Header.Set]

theorem Header_Set_other (h : Header) (key value k : GoString)
    (hk : k ≠ CanonicalMIMEHeaderKey key) : (h.Set key value) k = h k := by
  simp [Header.Set, hk]

theorem Header_Get_Set_same (h : Header) (key value : GoString) :
    (h.Set key value).Get key = value := by
  simp [Header.Get, Header.Set]

theorem Header_Del_other (h : Header) (key k : GoString)
    (hk : k ≠ CanonicalMIMEHeaderKey key) : (h.Del key) k = h k := by
  simp [Header.Del, hk]

theorem Header_Del_none (h : Header) (key k : GoString) (hnone : h k = none) :
    (h.Del key) k = none := by
  unfold Header.Del
  split
  · rfl
  · exact hnone

/-- The header map the director leaves in the outbound request. -/
theorem Director_Header (EscapedPath : url.URL → GoString) (route : Route)
    (targetURL : url.URL) (r req : Request) :
    (Director EscapedPath route targetURL r req).Header =
      if r.Header.Get "Authorization".toList ≠ [] then
        ((req.Header.Set "X-Forwarded-Host".toList (req.Header.Get "Host".toList)).Set
          "X-Origin-Host".toList targetURL.Host).Set "Authorization".toList
          (r.Header.Get "Authorization".toList)
      else
        (req.Header.Set "X-Forwarded-Host".toList (req.Header.Get "Host".toList)).Set
          "X-Origin-Host".toList targetURL.Host := by
  unfold Director
  simp only [httputil.rewriteRequestURL]
  split_ifs <;> rfl

/-- The director touches no entry other than `X-Forwarded-Host`, `X-Origin-Host` and
`Authorization`. -/
theorem Director_Header_other (EscapedPath : url.URL → GoString) (route : Route)
    (targetURL : url.URL) (r req : Request) (k : GoString)
    (h1 : k ≠ "X-Forwarded-Host".toList) (h2 : k ≠ "X-Origin-Host".toList)
    (h3 : k ≠ "Authorization".toList) :
    (Director EscapedPath route targetURL r req).Header k = req.Header k := by
  have c1 : CanonicalMIMEHeaderKey "X-Forwarded-Host".toList = "X-Forwarded-Host".toList := by
    decide
  have c2 : CanonicalMIMEHeaderKey "X-Origin-Host".toList = "X-Origin-Host".toList := by
    decide
  have c3 : CanonicalMIMEHeaderKey "Authorization".toList = "Authorization".toList := by
    decide
  rw [Director_Header]
  split_ifs
  · rw [Header_Set_other _ _ _ _ (by rw [c3]; exact h3),
      Header_Set_other _ _ _ _ (by rw [c2]; exact h2),
      Header_Set_other _ _ _ _ (by rw [c1]; exact h1)]
  · rw [Header_Set_other _ _ _ _ (by rw [c2]; exact h2),
      Header_Set_other _ _ _ _ (by rw [c1]; exact h1)]

/-- What the director stores under `X-Forwarded-Host` and `X-Origin-Host`. -/
theorem Director_forwarding_headers (EscapedPath : url.URL → GoString) (route : Route)
    (targetURL : url.URL) (r req : Request) :
    (Director EscapedPath route targetURL r req).Header "X-Forwarded-Host".toList
      = some [req.Header.Get "Host".toList] ∧
    (Director EscapedPath route targetURL r req).Header "X-Origin-Host".toList
      = some [targetURL.Host] := by
  have c1 : CanonicalMIMEHeaderKey "X-Forwarded-Host".toList = "X-Forwarded-Host".toList := by
    decide
  have c2 : CanonicalMIMEHeaderKey "X-Origin-Host".toList = "X-Origin-Host".toList := by
    decide
  have c3 : CanonicalMIMEHeaderKey "Authorization".toList = "Authorization".toList := by
    decide
  have n1 : "X-Forwarded-Host".toList ≠ "X-Origin-Host".toList := by decide
  have n2 : "X-Forwarded-Host".toList ≠ "Authorization".toList := by decide
  have n3 : "X-Origin-Host".toList ≠ "Authorization".toList := by decide
  rw [Director_Header]
  split_ifs
  · constructor
    · rw [Header_Set_other _ _ _ _ (by rw [c3]; exact n2),
        Header_Set_other _ _ _ _ (by rw [c2]; exact n1)]
      conv_lhs => rw [← c1]
      exact Header_Set_same _ _ _
    · rw [Header_Set_other _ _ _ _ (by rw [c3]; exact n3)]
      conv_lhs => rw [← c2]
      exact Header_Set_same _ _ _
  · constructor
    · rw [Header_Set_other _ _ _ _ (by rw [c2]; exact n1)]
      conv_lhs => rw [← c1]
      exact Header_Set_same _ _ _
    · conv_lhs => rw [← c2]
      exact Header_Set_same _ _ _

/-- What the director stores under `Authorization`. -/
theorem Director_Authorization_entry (EscapedPath : url.URL → GoString) (route : Route)
    (targetURL : url.URL) (r req : Request) :
    (∀ a : GoString, a ≠ [] → r.Header.Get "Authorization".toList = a →
      (Director EscapedPath route targetURL r req).Header "Authorization".toList = some [a]) ∧
    (r.Header "Authorization".toList = none →
      (Director EscapedPath route targetURL r req).Header "Authorization".toList
        = req.Header "Authorization".toList) := by
  have c1 : CanonicalMIMEHeaderKey "X-Forwarded-Host".toList = "X-Forwarded-Host".toList := by
    decide
  have c2 : CanonicalMIMEHeaderKey "X-Origin-Host".toList = "X-Origin-Host".toList := by
    decide
  have c3 : CanonicalMIMEHeaderKey "Authorization".toList = "Authorization".toList := by
    decide
  have n2 : "Authorization".toList ≠ "X-Forwarded-Host".toList := by decide
  have n3 : "Authorization".toList ≠ "X-Origin-Host".toList := by decide
  constructor
  · intro a ha hget
    rw [Director_Header, hget, if_pos ha]
    conv_lhs => rw [← c3]
    exact Header_Set_same _ _ _
  · intro hnone
    have hget : r.Header.Get "Authorization".toList = [] := by
      unfold Header.Get
      rw [c3, hnone]
    rw [Director_Header, hget]
    simp only [ne_eq, not_true_eq_false, if_false]
    rw [Header_Set_other _ _ _ _ (by rw [c2]; exact n3),
      Header_Set_other _ _ _ _ (by rw [c1]; exact n2)]

/-! ## What the proxy does to the header map after the director -/

theorem foldl_Del_other (keys : List GoString) (h : Header) (k : GoString)
    (hk : ∀ key ∈ keys, k ≠ CanonicalMIMEHeaderKey key) :
    (keys.foldl (fun acc f => acc.Del f) h) k = h k := by
  induction keys generalizing h with
  | nil => rfl
  | cons key rest ih =>
    simp only [List.foldl_cons]
    rw [ih _ (fun key' hkey' => hk key' (List.mem_cons_of_mem _ hkey')),
      Header_Del_other _ _ _ (hk key (List.mem_cons_self _ _))]

theorem foldl_Del_none (keys : List GoString) (h : Header) (k : GoString)
    (hnone : h k = none) : (keys.foldl (fun acc f => acc.Del f) h) k = none := by
  induction keys generalizing h with
  | nil => exact hnone
  | cons key rest ih =>
    simp only [List.foldl_cons]
    exact ih _ (Header_Del_none _ _ _ hnone)

theorem foldl_named_other (parts : List GoString) (h : Header) (k : GoString)
    (hk : ∀ sf ∈ parts, k ≠ CanonicalMIMEHeaderKey (textproto.TrimString sf)) :
    (parts.foldl
      (fun acc sf =>
        if textproto.TrimString sf ≠ [] then acc.Del (textproto.TrimString sf) else acc)
      h) k = h k := by
  induction parts generalizing h with
  | nil => rfl
  | cons sf rest ih =>
    simp only [List.foldl_cons]
    rw [ih _ (fun sf' hsf' => hk sf' (List.mem_cons_of_mem _ hsf'))]
    split
    · exact Header_Del_other _ _ _ (hk sf (List.mem_cons_self _ _))
    · rfl

theorem foldl_named_none (parts : List GoString) (h : Header) (k : GoString)
    (hnone : h k = none) :
    (parts.foldl
      (fun acc sf =>
        if textproto.TrimString sf ≠ [] then acc.Del (textproto.TrimString sf) else acc)
      h) k = none := by
  induction parts generalizing h with
  | nil => exact hnone
  | cons sf rest ih =>
    simp only [List.foldl_cons]
    apply ih
    split
    · exact Header_Del_none _ _ _ hnone
    · exact hnone

/-- An entry that is neither named in a `Connection` value nor one of the hop-by-hop
headers passes `removeHopByHopHeaders` unchanged. -/
theorem removeHopByHopHeaders_other (h : Header) (k : GoString)
    (hconn : ∀ f ∈ (h "Connection".toList).getD [], ∀ sf ∈ strings.Split f ',',
      k ≠ CanonicalMIMEHeaderKey (textproto.TrimString sf))
    (hhop : ∀ key ∈ httputil.hopHeaders, k ≠ CanonicalMIMEHeaderKey key) :
    httputil.removeHopByHopHeaders h k = h k := by
  unfold httputil.removeHopByHopHeaders
  rw [foldl_Del_other _ _ _ hhop]
  generalize (h "Connection".toList).getD [] = values at hconn
  induction values generalizing h with
  | nil => rfl
  | cons f rest ih =>
    simp only [List.foldl_cons]
    rw [ih _ (fun f' hf' => hconn f' (List.mem_cons_of_mem _ hf'))]
    exact foldl_named_other _ _ _ (hconn f (List.mem_cons_self _ _))

/-- An absent entry stays absent through `removeHopByHopHeaders`. -/
theorem removeHopByHopHeaders_none (h : Header) (k : GoString) (hnone : h k = none) :
    httputil.removeHopByHopHeaders h k = none := by
  unfold httputil.removeHopByHopHeaders
  apply foldl_Del_none
  generalize (h "Connection".toList).getD [] = values
  induction values generalizing h with
  | nil => exact hnone
  | cons f rest ih =>
    simp only [List.foldl_cons]
    exact ih _ (foldl_named_none _ _ _ hnone)

theorem setForwardedFor_other (h : Header) (clientIP : Option GoString) (k : GoString)
    (hk : k ≠ "X-Forwarded-For".toList) : httputil.setForwardedFor h clientIP k = h k := by
  have c : CanonicalMIMEHeaderKey "X-Forwarded-For".toList = "X-Forwarded-For".toList := by
    decide
  unfold httputil.setForwardedFor
  cases clientIP with
  | none => rfl
  | some ip =>
    cases hx : h "X-Forwarded-For".toList with
    | none =>
      simp only [hx]
      exact Header_Set_other _ _ _ _ (by rw [c]; exact hk)
    | some prior =>
      cases prior with
      | nil => simp only [hx]
      | cons v vs =>
        simp only [hx]
        exact Header_Set_other _ _ _ _ (by rw [c]; exact hk)

/-- The steps after the removal of hop-by-hop headers leave the `Authorization` entry
alone. -/
theorem outboundHeader_Authorization (out inbound : Header) (clientIP : Option GoString) :
    httputil.outboundHeader out inbound clientIP "Authorization".toList
      = httputil.removeHopByHopHeaders out "Authorization".toList := by
  have cTe : "Authorization".toList ≠ CanonicalMIMEHeaderKey "Te".toList := by decide
  have cConn : "Authorization".toList ≠ CanonicalMIMEHeaderKey "Connection".toList := by decide
  have cUp : "Authorization".toList ≠ CanonicalMIMEHeaderKey "Upgrade".toList := by decide
  have cUA : "Authorization".toList ≠ CanonicalMIMEHeaderKey "User-Agent".toList := by decide
  have cXFF : "Authorization".toList ≠ "X-Forwarded-For".toList := by decide
  unfold httputil.outboundHeader
  split_ifs <;>
    simp only [Header_Set_other _ _ _ _ cUA, setForwardedFor_other _ _ _ cXFF,
      Header_Set_other _ _ _ _ cUp, Header_Set_other _ _ _ _ cConn,
      Header_Set_other _ _ _ _ cTe]

/-- The requests `ReverseProxy.ServeHTTP` issues: none, or the result of the director with
the header map `outboundHeader`. -/
theorem ReverseProxy_sent (director : Request → Request)
    (errorHandler : ResponseWriter → GoString → ResponseWriter)
    (SplitHostPort : GoString → Option GoString)
    (RoundTrip : Request → Except GoString Response) (rw : ResponseWriter) (req : Request) :
    (ascii.IsPrint (httputil.upgradeType (director req).Header) = false ∧
      (httputil.ReverseProxy.ServeHTTP director errorHandler SplitHostPort RoundTrip rw req).2
        = []) ∨
    (ascii.IsPrint (httputil.upgradeType (director req).Header) = true ∧
      (httputil.ReverseProxy.ServeHTTP director errorHandler SplitHostPort RoundTrip rw req).2
        = [{ director req with
             Header := httputil.outboundHeader (director req).Header req.Header
               (SplitHostPort req.RemoteAddr) }]) := by
  unfold httputil.ReverseProxy.ServeHTTP
  simp only []
  cases hprint : ascii.IsPrint (httputil.upgradeType (director req).Header)
  · left
    simp
  · right
    simp only [Bool.true_eq_false, if_false, true_and]
    split <;> rfl

/-! ## The error responses -/

/-- C6 (routing miss).  When no route of the table has a `PathPrefix` that is a prefix of
the request path, `Route` returns no route and `ServeHTTP`, started on a writer with no
status written, issues no outbound request, makes the single call `WriteHeader(404)`,
which commits status 404 with `Content-Type: application/json`, and writes one JSON object
whose three fields are `error = "Service not found"`, `path =` the request path and
`status = 404`. -/
theorem ServeHTTP_routing_miss (gh : GatewayHandler) (Parse : GoString → Option url.URL)
    (EscapedPath : url.URL → GoString) (SplitHostPort : GoString → Option GoString)
    (RoundTrip : Request → Except GoString Response)
    (w : ResponseWriter) (r : Request)
    (hmiss : ∀ route ∈ gh.Router.Routes, ¬ route.PathPrefix <+: r.URL.Path)
    (hw : w.wroteHeader = false) :
    gh.Router.Route r = none ∧
    (gh.ServeHTTP Parse EscapedPath SplitHostPort RoundTrip w r).2 = [] ∧
    (gh.ServeHTTP Parse EscapedPath SplitHostPort RoundTrip w r).1.wroteHeader = true ∧
    (gh.ServeHTTP Parse EscapedPath SplitHostPort RoundTrip w r).1.status = 404 ∧
    (gh.ServeHTTP Parse EscapedPath SplitHostPort RoundTrip w r).1.writeHeaderCalls
      = w.writeHeaderCalls ++ [404] ∧
    (gh.ServeHTTP Parse EscapedPath SplitHostPort RoundTrip w r).1.sentHeader "Content-Type".toList
      = some ["application/json".toList] ∧
    (gh.ServeHTTP Parse EscapedPath SplitHostPort RoundTrip w r).1.body
      = w.body ++ [Chunk.json (notFoundBody r.URL.Path)] ∧
    (notFoundBody r.URL.Path).lookup "error".toList
      = some (json.Value.str "Service not found".toList) ∧
    (notFoundBody r.URL.Path).lookup "path".toList = some (json.Value.str r.URL.Path) ∧
    (notFoundBody r.URL.Path).lookup "status".toList = some (json.Value.num 404) ∧
    (notFoundBody r.URL.Path).length = 3 := by
  have hnone : gh.Router.Route r = none := by
    unfold Router.Route
    rw [List.find?_eq_none]
    intro route hroute
    rw [strings.HasPrefix_iff]
    exact hmiss route hroute
  have hct : CanonicalMIMEHeaderKey "Content-Type".toList = "Content-Type".toList := by decide
  refine ⟨hnone, ?_, ?_, ?_, ?_, ?_, ?_, ?_, ?_, ?_, ?_⟩
  · simp [GatewayHandler.ServeHTTP, hnone]
  · simp [GatewayHandler.ServeHTTP, hnone, ResponseWriter.Write, ResponseWriter.WriteHeader, hw]
  · simp [GatewayHandler.ServeHTTP, hnone, ResponseWriter.Write, ResponseWriter.WriteHeader, hw]
  · simp [GatewayHandler.ServeHTTP, hnone, ResponseWriter.Write, ResponseWriter.WriteHeader, hw]
  · simp only [GatewayHandler.ServeHTTP, hnone, ResponseWriter.Write, ResponseWriter.WriteHeader,
      hw]
    simp only [Bool.false_eq_true, if_false, if_true]
    conv_lhs => rw [← hct]
    exact Header_Set_same _ _ _
  · simp [GatewayHandler.ServeHTTP, hnone, ResponseWriter.Write, ResponseWriter.WriteHeader, hw]
  · rfl
  · rfl
  · rfl
  · rfl

/-- C7 (the guard of the error handler does not look at the commit state).  Whenever the header
map has no `Status` entry the handler calls `WriteHeader(502)` and writes the JSON body,
whether or not a status was already committed.  On a writer that already sent status 200 and
part of a body it makes a second `WriteHeader` call and appends the JSON object to the
body, the status on the wire staying 200.  On a writer that sent nothing but whose header
map holds a `Status` entry it sends nothing. -/
theorem ErrorHandler_ignores_commit_state :
    (∀ (rw : ResponseWriter) (err : GoString), rw.header.Get "status".toList = [] →
      (ErrorHandler rw err).writeHeaderCalls = rw.writeHeaderCalls ++ [502] ∧
      (ErrorHandler rw err).body = rw.body ++ [Chunk.json (badGatewayBody err)]) ∧
    (ErrorHandler sample.startedWriter "connection refused".toList).writeHeaderCalls
      = [200, 502] ∧
    (ErrorHandler sample.startedWriter "connection refused".toList).body
      = [Chunk.raw "partial".toList,
         Chunk.json (badGatewayBody "connection refused".toList)] ∧
    (ErrorHandler sample.startedWriter "connection refused".toList).status = 200 ∧
    (ErrorHandler sample.statusHeaderWriter "connection refused".toList).wroteHeader = false ∧
    (ErrorHandler sample.statusHeaderWriter "connection refused".toList).writeHeaderCalls = [] ∧
    (ErrorHandler sample.statusHeaderWriter "connection refused".toList).body = [] := by
  refine ⟨?_, by decide⟩
  intro rw err hstatus
  unfold ErrorHandler
  rw [if_pos hstatus]
  cases hw : rw.wroteHeader <;>
    simp [ResponseWriter.Write, ResponseWriter.WriteHeader, hw]

/-! ## The forwarded host -/

/-- C8 (what the director stores under the forwarding headers).  Whenever the header map of
the outbound request has no `Host` entry, which is how the server delivers every request,
`X-Forwarded-Host` is set to the empty string whatever the `Host` field of the request is.
For the request `GET /service-a/x` sent with `Host: example.com` and routed to
`http://localhost:8081`, the host the client sent is `example.com`, `X-Forwarded-Host` is
the empty string and `X-Origin-Host` is the host of the target. -/
theorem Director_forwarded_host_is_empty :
    (∀ (EscapedPath : url.URL → GoString) (route : Route) (targetURL : url.URL)
        (r req : Request), req.Header "Host".toList = none →
      (Director EscapedPath route targetURL r req).Header "X-Forwarded-Host".toList
        = some [[]]) ∧
    (sample.request "example.com" "/service-a/x" Header.empty).Host = "example.com".toList ∧
    (Director sample.escapedPath (sample.route "ServiceA" "/service-a" "")
        (sample.target "localhost:8081" "")
        (sample.request "example.com" "/service-a/x" Header.empty)
        (sample.request "example.com" "/service-a/x" Header.empty)).Header
      "X-Forwarded-Host".toList = some [[]] ∧
    (Director sample.escapedPath (sample.route "ServiceA" "/service-a" "")
        (sample.target "localhost:8081" "")
        (sample.request "example.com" "/service-a/x" Header.empty)
        (sample.request "example.com" "/service-a/x" Header.empty)).Header
      "X-Origin-Host".toList = some ["localhost:8081".toList] := by
  refine ⟨?_, by decide⟩
  intro EscapedPath route targetURL r req hhost
  have c0 : CanonicalMIMEHeaderKey "Host".toList = "Host".toList := by decide
  have hget : req.Header.Get "Host".toList = [] := by
    unfold Header.Get
    rw [c0, hhost]
  rw [(Director_forwarding_headers EscapedPath route targetURL r req).1, hget]

/-! ## Authorization on the request that is sent -/

/-- C9, as amended (authorization pass-through).  For an inbound request that matches a route
whose target URL parses: unless it asks for an upgrade to a protocol with a non-printable
name, exactly one outbound request is sent.  When the inbound request carries a non-empty
`Authorization` value `a` and no `Connection` value names `Authorization`, every outbound
request sent holds exactly `[a]` under `Authorization`, whatever `a` is.  When the inbound
request has no `Authorization` entry, no outbound request sent has one. -/
theorem ServeHTTP_authorization_pass_through (gh : GatewayHandler)
    (Parse : GoString → Option url.URL) (EscapedPath : url.URL → GoString)
    (SplitHostPort : GoString → Option GoString)
    (RoundTrip : Request → Except GoString Response) (w : ResponseWriter) (r : Request)
    (route : Route) (targetURL : url.URL)
    (hroute : gh.Router.Route r = some route)
    (hparse : Parse route.TargetURL = some targetURL) :
    (ascii.IsPrint (httputil.upgradeType r.Header) = true →
      ∃ out, (gh.ServeHTTP Parse EscapedPath SplitHostPort RoundTrip w r).2 = [out]) ∧
    (∀ a : GoString, a ≠ [] → r.Header.Get "Authorization".toList = a →
      (∀ f ∈ (r.Header "Connection".toList).getD [], ∀ sf ∈ strings.Split f ',',
        CanonicalMIMEHeaderKey (textproto.TrimString sf) ≠ "Authorization".toList) →
      ∀ out ∈ (gh.ServeHTTP Parse EscapedPath SplitHostPort RoundTrip w r).2,
        out.Header "Authorization".toList = some [a]) ∧
    (r.Header "Authorization".toList = none →
      ∀ out ∈ (gh.ServeHTTP Parse EscapedPath SplitHostPort RoundTrip w r).2,
        out.Header "Authorization".toList = none) := by
  have hserve : (gh.ServeHTTP Parse EscapedPath SplitHostPort RoundTrip w r).2
      = (httputil.ReverseProxy.ServeHTTP
          (fun req => Director EscapedPath route targetURL r req)
          ErrorHandler SplitHostPort RoundTrip w r).2 := by
    simp only [GatewayHandler.ServeHTTP, hroute, hparse]
  have hconnKey : (Director EscapedPath route targetURL r r).Header "Connection".toList
      = r.Header "Connection".toList :=
    Director_Header_other _ _ _ _ _ _ (by decide) (by decide) (by decide)
  have hupKey : (Director EscapedPath route targetURL r r).Header "Upgrade".toList
      = r.Header "Upgrade".toList :=
    Director_Header_other _ _ _ _ _ _ (by decide) (by decide) (by decide)
  have cUp : CanonicalMIMEHeaderKey "Upgrade".toList = "Upgrade".toList := by decide
  have hup : httputil.upgradeType (Director EscapedPath route targetURL r r).Header
      = httputil.upgradeType r.Header := by
    unfold httputil.upgradeType Header.Get
    rw [hconnKey, cUp, hupKey]
  have hhop : ∀ key ∈ httputil.hopHeaders,
      "Authorization".toList ≠ CanonicalMIMEHeaderKey key := by decide
  have hsent := ReverseProxy_sent (fun req => Director EscapedPath route targetURL r req)
    ErrorHandler SplitHostPort RoundTrip w r
  rw [← hserve] at hsent
  simp only [hup] at hsent
  refine ⟨?_, ?_, ?_⟩
  · intro hprint
    rcases hsent with ⟨hfalse, _⟩ | ⟨_, hone⟩
    · rw [hprint] at hfalse
      exact absurd hfalse (by decide)
    · exact ⟨_, hone⟩
  · intro a ha hget hconn out hout
    rcases hsent with ⟨_, hnil⟩ | ⟨_, hone⟩
    · rw [hnil] at hout
      exact absurd hout (List.not_mem_nil _)
    · rw [hone, List.mem_singleton] at hout
      rw [hout]
      show httputil.outboundHeader _ _ _ _ = _
      rw [outboundHeader_Authorization, removeHopByHopHeaders_other _ _ _ hhop]
      · exact (Director_Authorization_entry EscapedPath route targetURL r r).1 a ha hget
      · rw [hconnKey]
        intro f hf sf hsf
        exact (hconn f hf sf hsf).symm
  · intro hnone out hout
    rcases hsent with ⟨_, hnil⟩ | ⟨_, hone⟩
    · rw [hnil] at hout
      exact absurd hout (List.not_mem_nil _)
    · rw [hone, List.mem_singleton] at hout
      rw [hout]
      show httputil.outboundHeader _ _ _ _ = _
      rw [outboundHeader_Authorization]
      apply removeHopByHopHeaders_none
      rw [(Director_Authorization_entry EscapedPath route targetURL r r).2 hnone]
      exact hnone

/-- C9 as stated fails when the client names `Authorization` in `Connection`.  The request
`GET /service-a/x` with `Authorization: Bearer xyz` and `Connection: Authorization` matches
the first route of `main`; the director copies the value, the proxy then removes every
header named in `Connection`, and the one request sent has no `Authorization` entry. -/
theorem ServeHTTP_drops_named_authorization :
    (NewGatewayHandler (NewRouter main.cfgRoutes)).Router.Route sample.hopRequest
      = some sample.serviceA ∧
    sample.hopRequest.Header.Get "Authorization".toList = "Bearer xyz".toList ∧
    (Director sample.escapedPath sample.serviceA (sample.target "localhost:8081" "")
        sample.hopRequest sample.hopRequest).Header "Authorization".toList
      = some ["Bearer xyz".toList] ∧
    ((NewGatewayHandler (NewRouter main.cfgRoutes)).ServeHTTP sample.parse sample.escapedPath
        sample.splitHostPort sample.refused ResponseWriter.fresh sample.hopRequest).2.map
      (fun out => out.Header "Authorization".toList) = [none] := by
  decide

/-! ## Sample runs -/

/-- C1 at the routes `/service-c`, `/service-c/specific` and the path
`/service-c/specific/x`: the route found is `/service-c/specific`. -/
theorem Route_longest_prefix_wins_witness :
    (∃ route ∈ sample.nestedRoutes, route.PathPrefix <+: sample.nestedRequest.URL.Path) ∧
    (∃ m, (NewRouter sample.nestedRoutes).Route sample.nestedRequest = some m ∧
      m ∈ sample.nestedRoutes ∧ m.PathPrefix <+: sample.nestedRequest.URL.Path ∧
      ∀ route ∈ sample.nestedRoutes, route.PathPrefix <+: sample.nestedRequest.URL.Path →
        route.PathPrefix.length ≤ m.PathPrefix.length) ∧
    (NewRouter sample.nestedRoutes).Route sample.nestedRequest
      = some (sample.route "specific" "/service-c/specific" "") :=
  ⟨⟨sample.route "specific" "/service-c/specific" "", by decide, by decide⟩,
    Route_longest_prefix_wins sample.nestedRoutes sample.nestedRequest
      ⟨sample.route "specific" "/service-c/specific" "", by decide, by decide⟩,
    by decide⟩

/-- C2 at two routes with prefix `/api` declared at positions 1 and 2, after the longer
route `/zzzzzzz` that does not match, and the path `/api/x`: the route found is the one
declared at position 1. -/
theorem Route_stable_tie_break_witness :
    (∃ k m, sample.tiedRoutes[k]? = some m ∧
      (NewRouter sample.tiedRoutes).Route sample.tiedRequest = some m ∧ k ≠ 2 ∧
      m.PathPrefix <+: sample.tiedRequest.URL.Path ∧
      (∀ (n : Nat) (route : Route), sample.tiedRoutes[n]? = some route →
        route.PathPrefix <+: sample.tiedRequest.URL.Path →
        route.PathPrefix.length ≤ m.PathPrefix.length) ∧
      (∀ (n : Nat) (route : Route), n < k → sample.tiedRoutes[n]? = some route →
        route.PathPrefix <+: sample.tiedRequest.URL.Path →
        route.PathPrefix.length < m.PathPrefix.length)) ∧
    (NewRouter sample.tiedRoutes).Route sample.tiedRequest
      = some (sample.route "first" "/api" "") ∧
    (NewRouter sample.tiedRoutes).Routes.head? = some (sample.route "other" "/zzzzzzz" "") :=
  ⟨Route_stable_tie_break sample.tiedRoutes sample.tiedRequest 1 2
      (sample.route "first" "/api" "") (sample.route "second" "/api" "")
      (by decide) (by decide) (by decide) (by decide) (by decide) (by decide),
    by decide, by decide⟩

/-- C4 at the two examples of the specification: `/service-c/foo` becomes `/foo` and, with
the explicit strip prefix `/service-c/specific`, `/service-c/specific/bar` becomes `/bar`. -/
theorem Director_path_refines_spec_witness :
    (Director sample.escapedPath (sample.route "c" "/service-c" "")
        (sample.target "localhost:8083" "")
        (sample.request "example.com" "/service-c/foo" Header.empty)
        (sample.request "example.com" "/service-c/foo" Header.empty)).URL.Path
      = specRewrite (sample.route "c" "/service-c" "") "/service-c/foo".toList ∧
    specRewrite (sample.route "c" "/service-c" "") "/service-c/foo".toList = "/foo".toList ∧
    (Director sample.escapedPath (sample.route "c" "/service-c/specific" "/service-c/specific")
        (sample.target "localhost:8083" "")
        (sample.request "example.com" "/service-c/specific/bar" Header.empty)
        (sample.request "example.com" "/service-c/specific/bar" Header.empty)).URL.Path
      = specRewrite (sample.route "c" "/service-c/specific" "/service-c/specific")
          "/service-c/specific/bar".toList ∧
    specRewrite (sample.route "c" "/service-c/specific" "/service-c/specific")
        "/service-c/specific/bar".toList = "/bar".toList :=
  ⟨Director_path_refines_spec sample.escapedPath (sample.route "c" "/service-c" "")
      (sample.target "localhost:8083" "")
      (sample.request "example.com" "/service-c/foo" Header.empty)
      (sample.request "example.com" "/service-c/foo" Header.empty) rfl (by decide)
      (Or.inr (by decide)),
    by decide,
    Director_path_refines_spec sample.escapedPath
      (sample.route "c" "/service-c/specific" "/service-c/specific")
      (sample.target "localhost:8083" "")
      (sample.request "example.com" "/service-c/specific/bar" Header.empty)
      (sample.request "example.com" "/service-c/specific/bar" Header.empty) rfl (by decide)
      (Or.inr (by decide)),
    by decide⟩

/-- C6 at the routes of `main` and the request `GET /unknown` on a fresh writer. -/
theorem ServeHTTP_routing_miss_witness :
    (NewGatewayHandler (NewRouter main.cfgRoutes)).Router.Route sample.unknownRequest = none ∧
    ((NewGatewayHandler (NewRouter main.cfgRoutes)).ServeHTTP sample.parse
      sample.escapedPath sample.splitHostPort sample.refused ResponseWriter.fresh
      sample.unknownRequest).2 = [] ∧
    ((NewGatewayHandler (NewRouter main.cfgRoutes)).ServeHTTP sample.parse
      sample.escapedPath sample.splitHostPort sample.refused ResponseWriter.fresh
      sample.unknownRequest).1.status = 404 ∧
    ((NewGatewayHandler (NewRouter main.cfgRoutes)).ServeHTTP sample.parse
      sample.escapedPath sample.splitHostPort sample.refused ResponseWriter.fresh
      sample.unknownRequest).1.body
      = [Chunk.json (notFoundBody "/unknown".toList)] :=
  have h := ServeHTTP_routing_miss (NewGatewayHandler (NewRouter main.cfgRoutes))
    sample.parse sample.escapedPath sample.splitHostPort sample.refused ResponseWriter.fresh
    sample.unknownRequest (by decide) rfl
  ⟨h.1, h.2.1, h.2.2.2.1, h.2.2.2.2.2.2.1⟩

/-- C9 at the routes of `main`: the request `GET /service-a/x` with
`Authorization: Bearer xyz` is sent on with exactly that value, and the same request
without the header is sent on without it. -/
theorem ServeHTTP_authorization_pass_through_witness :
    ((NewGatewayHandler (NewRouter main.cfgRoutes)).ServeHTTP sample.parse sample.escapedPath
        sample.splitHostPort sample.refused ResponseWriter.fresh sample.bearerRequest).2.map
      (fun out => out.Header "Authorization".toList) = [some ["Bearer xyz".toList]] ∧
    ((NewGatewayHandler (NewRouter main.cfgRoutes)).ServeHTTP sample.parse sample.escapedPath
        sample.splitHostPort sample.refused ResponseWriter.fresh sample.plainRequest).2.map
      (fun out => out.Header "Authorization".toList) = [none] := by
  have h1 := ServeHTTP_authorization_pass_through
    (NewGatewayHandler (NewRouter main.cfgRoutes)) sample.parse sample.escapedPath
    sample.splitHostPort sample.refused ResponseWriter.fresh sample.bearerRequest
    sample.serviceA (sample.target "localhost:8081" "") (by decide) (by decide)
  have h2 := ServeHTTP_authorization_pass_through
    (NewGatewayHandler (NewRouter main.cfgRoutes)) sample.parse sample.escapedPath
    sample.splitHostPort sample.refused ResponseWriter.fresh sample.plainRequest
    sample.serviceA (sample.target "localhost:8081" "") (by decide) (by decide)
  constructor
  · obtain ⟨out, hout⟩ := h1.1 (by decide)
    have hmem : out ∈ ((NewGatewayHandler (NewRouter main.cfgRoutes)).ServeHTTP sample.parse
        sample.escapedPath sample.splitHostPort sample.refused ResponseWriter.fresh
        sample.bearerRequest).2 := by
      rw [hout]; exact List.mem_singleton.2 rfl
    have hval := h1.2.1 "Bearer xyz".toList (by decide) (by decide) (by decide) out hmem
    rw [hout, List.map_cons, List.map_nil, hval]
  · obtain ⟨out, hout⟩ := h2.1 (by decide)
    have hmem : out ∈ ((NewGatewayHandler (NewRouter main.cfgRoutes)).ServeHTTP sample.parse
        sample.escapedPath sample.splitHostPort sample.refused ResponseWriter.fresh
        sample.plainRequest).2 := by
      rw [hout]; exact List.mem_singleton.2 rfl
    have hval := h2.2.2 (by decide) out hmem
    rw [hout, List.map_cons, List.map_nil, hval]

end gateway
